import Mathlib

/-!
Shallow embedding of the `algo-approx` approximation engine
(`src/internal/approx` and the package-level files) in Lean 4.

Scalar values are modelled by `GoFloat`: IEEE-754 special values (NaN and the
two infinities) are represented explicitly, and finite values carry an exact
rational.  Arithmetic on finite values is exact (the idealization of the
float arithmetic); the special-value rules (NaN propagation, signed
infinities, division by zero) follow the IEEE semantics that Go's `float64`
operations implement.  Bit-level operations (`math.Float64bits` /
`math.Float64frombits`) are modelled exactly on the IEEE-754 binary64
encoding, and the final `float64 → float32` conversion performed by the
generic kernels when instantiated at `float32` is modelled by exact
round-to-nearest-even (`roundF32`).
-/

namespace AlgoApprox

/-- Model of a Go floating-point value: NaN, a signed infinity
(`inf true` is `+Inf`), or a finite value carried as an exact rational. -/
inductive GoFloat where
  | nan : GoFloat
  | inf : Bool → GoFloat
  | fin : ℚ → GoFloat
  deriving DecidableEq, Repr

namespace GoFloat

/-- Go `==` on floats: NaN compares unequal to everything, including itself. -/
def beq : GoFloat → GoFloat → Bool
  | nan, _ => false
  | _, nan => false
  | inf a, inf b => a = b
  | fin p, fin q => p = q
  | _, _ => false

/-- Go `<` on floats: NaN comparisons are false; `-Inf` is below every
non-NaN value and `+Inf` above every non-NaN value. -/
def blt : GoFloat → GoFloat → Bool
  | nan, _ => false
  | _, nan => false
  | inf false, inf false => false
  | inf false, _ => true
  | inf true, _ => false
  | _, inf true => true
  | fin _, inf false => false
  | fin p, fin q => p < q

/-- Go `<=` on floats. -/
def ble (x y : GoFloat) : Bool := blt x y || beq x y

/-- IEEE negation. -/
def neg : GoFloat → GoFloat
  | nan => nan
  | inf b => inf (!b)
  | fin q => fin (-q)

/-- IEEE addition with exact finite arithmetic. -/
def add : GoFloat → GoFloat → GoFloat
  | nan, _ => nan
  | _, nan => nan
  | inf a, inf b => if a = b then inf a else nan
  | inf a, fin _ => inf a
  | fin _, inf b => inf b
  | fin p, fin q => fin (p + q)

/-- IEEE subtraction. -/
def sub (x y : GoFloat) : GoFloat := add x (neg y)

/-- IEEE multiplication with exact finite arithmetic; `Inf * 0` is NaN. -/
def mul : GoFloat → GoFloat → GoFloat
  | nan, _ => nan
  | _, nan => nan
  | inf a, inf b => inf (a = b)
  | inf a, fin q => if q = 0 then nan else inf (a = decide (0 < q))
  | fin p, inf b => if p = 0 then nan else inf (b = decide (0 < p))
  | fin p, fin q => fin (p * q)

/-- IEEE division with exact finite arithmetic; `x/0` for finite nonzero `x`
is a signed infinity (the model's single zero is `+0`), `0/0` and `Inf/Inf`
are NaN, and finite/`Inf` is `0`. -/
def div : GoFloat → GoFloat → GoFloat
  | nan, _ => nan
  | _, nan => nan
  | inf _, inf _ => nan
  | inf a, fin q => if q = 0 then inf a else inf (a = decide (0 < q))
  | fin _, inf _ => fin 0
  | fin p, fin q =>
      if q = 0 then (if p = 0 then nan else inf (decide (0 < p))) else fin (p / q)

/-- `math.IsInf(x, 0)`: either infinity. -/
def isInfE : GoFloat → Bool
  | inf _ => true
  | _ => false

/-- `math.IsInf(x, 1)`: positive infinity. -/
def isInfP : GoFloat → Bool
  | inf true => true
  | _ => false

/-- `math.IsInf(x, -1)`: negative infinity. -/
def isInfN : GoFloat → Bool
  | inf false => true
  | _ => false

end GoFloat

open GoFloat

/-- Truncation toward zero of a rational, as used by the exact
floating-point remainder. -/
def qtrunc (q : ℚ) : ℤ := if 0 ≤ q then ⌊q⌋ else ⌈q⌉

/-- `math.Mod(x, y)`: floating-point remainder, exact in IEEE; the result has
the sign of `x` and magnitude below `|y|`.  `Mod(NaN, y)`, `Mod(±Inf, y)`,
`Mod(x, 0)` and `Mod(x, NaN)` are NaN; `Mod(x, ±Inf) = x` for finite `x`. -/
def goMod : GoFloat → GoFloat → GoFloat
  | GoFloat.nan, _ => GoFloat.nan
  | _, GoFloat.nan => GoFloat.nan
  | GoFloat.inf _, _ => GoFloat.nan
  | GoFloat.fin p, GoFloat.inf _ => GoFloat.fin p
  | GoFloat.fin p, GoFloat.fin q =>
      if q = 0 then GoFloat.nan else GoFloat.fin (p - q * qtrunc (p / q))

/-- The `math.Pi` constant as written in the Go standard library. -/
def goPi : ℚ := 3.14159265358979323846264338327950288419716939937510582097494459

/-- The `ln2` constant from `src/internal/approx/log.go`. -/
def ln2Q : ℚ := 0.693147180559945309417232121458176568

/-- The `invLn2` constant from `src/internal/approx/exp.go`. -/
def invLn2Q : ℚ := 1.442695040888963407359924681001892137

/-- `maxLogFloat64` from `src/internal/approx/exp.go`. -/
def maxLog64 : ℚ := 709.782712893384

/-- `minLogFloat64` from `src/internal/approx/exp.go`. -/
def minLog64 : ℚ := -745.133219101941

/-- `PrecisionAuto` (precision values are modelled by their integer codes,
as in `src/internal/approx/types.go`). -/
def PrecisionAuto : ℤ := 0

/-- `PrecisionFast`. -/
def PrecisionFast : ℤ := 1

/-- `PrecisionBalanced`. -/
def PrecisionBalanced : ℤ := 2

/-- `PrecisionHigh`. -/
def PrecisionHigh : ℤ := 3

/-- `Precision.IsValid` from `src/internal/approx/types.go`. -/
def isValidPrecision (p : ℤ) : Bool :=
  p = PrecisionAuto ∨ p = PrecisionFast ∨ p = PrecisionBalanced ∨ p = PrecisionHigh

/-- `normalizePrecision` from `src/internal/approx/types.go`:
`Auto` and every unrecognized value normalize to `Balanced`. -/
def normalizePrecision (p : ℤ) : ℤ :=
  if p = PrecisionAuto then PrecisionBalanced
  else if !(isValidPrecision p) then PrecisionBalanced
  else p

/-- `selectImpl` from `src/internal/approx/dispatch.go`. -/
def selectImpl (fast balanced high : GoFloat → GoFloat) (prec : ℤ) :
    GoFloat → GoFloat :=
  let np := normalizePrecision prec
  if np = PrecisionFast then fast
  else if np = PrecisionBalanced ∨ np = PrecisionAuto then balanced
  else if np = PrecisionHigh then high
  else balanced

/-- The finite value encoded by an IEEE-754 binary64 bit pattern whose sign
bit is clear and whose exponent field is not all-ones (`math.Float64frombits`
restricted to the patterns produced by the seed generators). -/
def valOfBits64 (u : ℕ) : ℚ :=
  let ef : ℕ := (u >>> 52) % 2048
  let mant : ℕ := u % 2 ^ 52
  if ef = 0 then (mant : ℚ) * (2 : ℚ) ^ (-1074 : ℤ)
  else ((2 ^ 52 + mant : ℕ) : ℚ) * (2 : ℚ) ^ ((ef : ℤ) - 1023 - 52)

/-- `math.Float64bits` on a positive finite value: the IEEE-754 binary64 bit
pattern of `q`.  Exact for values representable in binary64 (the only inputs
the kernels feed it); non-representable rationals have their mantissa
truncated. -/
def float64bits (q : ℚ) : ℕ :=
  if q ≤ 0 then 0
  else
    let e : ℤ := Int.log 2 q
    if e < -1022 then (⌊q * (2 : ℚ) ^ (1074 : ℤ)⌋).toNat
    else if 1023 < e then 0x7ff0000000000000
    else (e + 1023).toNat * 2 ^ 52 + (⌊q * (2 : ℚ) ^ (52 - e) - 2 ^ 52⌋).toNat

/-- `sqrtInitialGuess` from `src/internal/approx/sqrt.go` (64-bit branch):
halve the bit pattern and add the empirical offset.  The float32 branch is
identical in structure with the width-specific constant `0x1fc00000`; no
claim depends on the seed's numeric value. -/
def sqrtInitialGuess (q : ℚ) : ℚ :=
  valOfBits64 ((float64bits q >>> 1) + 0x1ff8000000000000)

/-- One Babylonian step `y ← 0.5*(y + x/y)` from `sqrtBabylonian`. -/
def babylonStep (x y : ℚ) : ℚ := (1 / 2) * (y + x / y)

/-- `sqrtBabylonian` from `src/internal/approx/sqrt.go`: edge cases first,
then the bit-level seed refined by `iterations` Babylonian steps. -/
def sqrtBabylonian (x : GoFloat) (iterations : ℕ) : GoFloat :=
  if beq x (fin 0) then fin 0
  else if blt x (fin 0) then nan
  else if !(beq x x) then x
  else if isInfE x then x
  else
    match x with
    | fin q =>
        let y0 := sqrtInitialGuess q
        let y1 := if y0 = 0 then q else y0
        fin ((fun y => babylonStep q y)^[iterations] y1)
    | _ => x

/-- `sqrtFast`. -/
def sqrtFast (x : GoFloat) : GoFloat := sqrtBabylonian x 1

/-- `sqrtBalanced`. -/
def sqrtBalanced (x : GoFloat) : GoFloat := sqrtBabylonian x 2

/-- `sqrtHigh`. -/
def sqrtHigh (x : GoFloat) : GoFloat := sqrtBabylonian x 3

/-- `Sqrt` from `src/internal/approx/sqrt.go`. -/
def Sqrt (x : GoFloat) (prec : ℤ) : GoFloat :=
  selectImpl sqrtFast sqrtBalanced sqrtHigh prec x

/-- `invSqrtQuake`, 64-bit branch: the magic-constant seed
`0x5fe6eb50c7b537a9 - (bits >> 1)`. -/
def invSqrtQuake (q : ℚ) : ℚ :=
  valOfBits64 (0x5fe6eb50c7b537a9 - (float64bits q >>> 1))

/-- One Newton-Raphson step `y ← y*(1.5 - 0.5*x*y*y)` from `invSqrtQuakeNR`. -/
def invSqrtStep (x y : ℚ) : ℚ := y * (3 / 2 - 1 / 2 * x * y * y)

/-- `invSqrtQuakeNR` from the inverse-square-root source file: edge cases
first, then the Quake seed refined by `iters` Newton-Raphson steps. -/
def invSqrtQuakeNR (x : GoFloat) (iters : ℕ) : GoFloat :=
  if beq x (fin 0) then inf true
  else if blt x (fin 0) then nan
  else if !(beq x x) then x
  else if isInfE x then fin 0
  else
    match x with
    | fin q => fin ((fun y => invSqrtStep q y)^[iters] (invSqrtQuake q))
    | _ => x

/-- `invSqrtFast`. -/
def invSqrtFast (x : GoFloat) : GoFloat := invSqrtQuakeNR x 1

/-- `invSqrtBalanced`. -/
def invSqrtBalanced (x : GoFloat) : GoFloat := invSqrtQuakeNR x 2

/-- `invSqrtHigh`. -/
def invSqrtHigh (x : GoFloat) : GoFloat := invSqrtQuakeNR x 3

/-- `InvSqrt` from the inverse-square-root source file. -/
def InvSqrt (x : GoFloat) (prec : ℤ) : GoFloat :=
  selectImpl invSqrtFast invSqrtBalanced invSqrtHigh prec x

/-- The unrolled odd-power log series from `src/internal/approx/log.go`,
switching on the already-normalized precision: Fast stops after `y³`,
High after `y¹¹`, the default (Balanced) after `y⁷`.  The running
product `p *= y2` of the source is unrolled into explicit powers. -/
def logSeries (np : ℤ) (y : ℚ) : ℚ :=
  let y2 := y * y
  let p1 := y * y2
  if np = PrecisionFast then y + p1 * (1 / 3)
  else if np = PrecisionHigh then
    y + p1 * (1 / 3) + p1 * y2 * (1 / 5) + p1 * y2 * y2 * (1 / 7) +
      p1 * y2 * y2 * y2 * (1 / 9) + p1 * y2 * y2 * y2 * y2 * (1 / 11)
  else
    y + p1 * (1 / 3) + p1 * y2 * (1 / 5) + p1 * y2 * y2 * (1 / 7)

/-- `Log` from `src/internal/approx/log.go`: edge cases, then range reduction
by direct exponent/mantissa bit extraction (`m0` is `1 + mant·2⁻⁵²`, halved
to land in `[0.5, 1)` for normal inputs), the `y = (m-1)/(m+1)` transform,
the tier-truncated odd series, and reconstruction `2·sum + e·ln2`. -/
def Log (x : GoFloat) (prec : ℤ) : GoFloat :=
  if !(beq x x) then x
  else if beq x (fin 0) then inf false
  else if blt x (fin 0) then nan
  else if isInfP x then inf true
  else
    match x with
    | fin q =>
        let bits := float64bits q
        let expBits : ℤ := ((bits >>> 52) % 2048 : ℕ) - 1023
        let mant : ℕ := bits % 2 ^ 52
        let m0 : ℚ := 1 + (mant : ℚ) * (1 / 2 ^ 52)
        let m : ℚ := m0 * (1 / 2)
        let e : ℤ := expBits + 1
        let y : ℚ := (m - 1) / (m + 1)
        let sum := logSeries (normalizePrecision prec) y
        fin (2 * sum + (e : ℚ) * ln2Q)
    | _ => x

/-- `expPoly` from `src/internal/approx/exp.go`: Horner evaluation of the
truncated Maclaurin polynomial for `e^r` (Fast through `r³`, Balanced/Auto
through `r⁵`, High through `r⁷`, default through `r⁵`). -/
def expPoly (r : ℚ) (prec : ℤ) : ℚ :=
  if prec = PrecisionFast then
    1 + r * (1 + r * (1 / 2 + r * (1 / 6)))
  else if prec = PrecisionAuto ∨ prec = PrecisionBalanced then
    1 + r * (1 + r * (1 / 2 + r * (1 / 6 + r * (1 / 24 + r * (1 / 120)))))
  else if prec = PrecisionHigh then
    1 + r * (1 + r * (1 / 2 + r * (1 / 6 + r * (1 / 24 + r * (1 / 120 +
      r * (1 / 720 + r * (1 / 5040)))))))
  else
    1 + r * (1 + r * (1 / 2 + r * (1 / 6 + r * (1 / 24 + r * (1 / 120)))))

/-- `Exp` from `src/internal/approx/exp.go`: edge cases, clamps at the
float64 overflow/underflow bounds, range reduction `x = k·ln2 + r` with
`k = ⌊x·invLn2 + 0.5⌋`, polynomial kernel, and exact scaling by `2^k`
(both the bit-constructed `2^k` of the fast path and `math.Ldexp` of the
fallback scale exactly by `2^k`). -/
def Exp (x : GoFloat) (prec : ℤ) : GoFloat :=
  if !(beq x x) then x
  else if isInfP x then inf true
  else if isInfN x then fin 0
  else if blt (fin maxLog64) x then inf true
  else if blt x (fin minLog64) then fin 0
  else
    match x with
    | fin q =>
        let k : ℤ := ⌊q * invLn2Q + 1 / 2⌋
        let r : ℚ := q - (k : ℚ) * ln2Q
        let expr := expPoly r (normalizePrecision prec)
        fin (expr * (2 : ℚ) ^ k)
    | _ => x

/-- Round-to-nearest with ties to even, on rationals. -/
def roundNE (q : ℚ) : ℤ :=
  let n := ⌊q⌋
  let f := q - (n : ℚ)
  if 1 / 2 < f then n + 1
  else if f < 1 / 2 then n
  else if n % 2 = 0 then n else n + 1

/-- Go's `float64 → float32` conversion (IEEE round-to-nearest-even on the
binary32 format), applied by the generic kernels' final `return T(...)` when
instantiated at `float32`.  Finite values at or beyond the binary32 overflow
rounding boundary `(2 - 2⁻²⁴)·2¹²⁷` become infinities; values within the
normal range are rounded to 24 significant bits; smaller values are rounded
on the subnormal grid `2⁻¹⁴⁹·ℤ` (so magnitudes at or below `2⁻¹⁵⁰` flush
to zero). -/
def roundF32 : GoFloat → GoFloat
  | GoFloat.nan => GoFloat.nan
  | GoFloat.inf b => GoFloat.inf b
  | GoFloat.fin q =>
      if q = 0 then GoFloat.fin 0
      else
        let a := |q|
        let s : ℚ := if q < 0 then -1 else 1
        if (2 - (2 : ℚ) ^ (-24 : ℤ)) * 2 ^ (127 : ℤ) ≤ a then GoFloat.inf (0 < q)
        else
          let e : ℤ := Int.log 2 a
          if e < -126 then GoFloat.fin (s * (roundNE (a * (2 : ℚ) ^ (149 : ℤ)) : ℚ) * (2 : ℚ) ^ (-149 : ℤ))
          else GoFloat.fin (s * (roundNE (a * (2 : ℚ) ^ (23 - e)) : ℚ) * (2 : ℚ) ^ (e - 23))

/-- The float32 instantiation of `Exp`: the generic kernel computes in
float64 and the final `return T(res)` converts to float32. -/
def Exp32 (x : GoFloat) (prec : ℤ) : GoFloat := roundF32 (Exp x prec)

/-- The sine range reduction repeated verbatim at the top of every
`sinNTerm` kernel in `src/internal/approx/trig.go`: reduce modulo `2π`,
shift into `[-π, π]`, then fold into `[-π/2, π/2]` by the reflection
identities. -/
def sinReduce (x : GoFloat) : GoFloat :=
  let twoPi := fin (2 * goPi)
  let a := goMod x twoPi
  let b :=
    if blt (fin goPi) a then sub a twoPi
    else if blt a (fin (-goPi)) then add a twoPi
    else a
  if blt (fin (goPi / 2)) b then sub (fin goPi) b
  else if blt b (fin (-(goPi / 2))) then sub (fin (-goPi)) b
  else b

/-- The cosine range reduction repeated verbatim at the top of every
`cosNTerm` kernel: reduce modulo `2π`, shift into `[0, 2π]`, then fold
into `[0, π]` via `cos(2π - x) = cos(x)`. -/
def cosReduce (x : GoFloat) : GoFloat :=
  let twoPi := fin (2 * goPi)
  let a := goMod x twoPi
  let b := if blt a (fin 0) then add a twoPi else a
  if blt (fin goPi) b then sub twoPi b else b

/-- `sin3Term` from `src/internal/approx/trig.go`. -/
def sin3Term (x : GoFloat) : GoFloat :=
  let xf := sinReduce x
  let sign := fin 1
  let x2 := mul xf xf
  let x3 := mul xf x2
  let x5 := mul x3 x2
  mul sign (add (sub xf (div x3 (fin 6))) (div x5 (fin 120)))

/-- `cos3Term`. -/
def cos3Term (x : GoFloat) : GoFloat :=
  let xf := cosReduce x
  let x2 := mul xf xf
  let x4 := mul x2 x2
  add (sub (fin 1) (div x2 (fin 2))) (div x4 (fin 24))

/-- `sec3Term`: `1 / cos3Term(x)`. -/
def sec3Term (x : GoFloat) : GoFloat := div (fin 1) (cos3Term x)

/-- `csc3Term`: `1 / sin3Term(x)`. -/
def csc3Term (x : GoFloat) : GoFloat := div (fin 1) (sin3Term x)

/-- `sin4Term`. -/
def sin4Term (x : GoFloat) : GoFloat :=
  let xf := sinReduce x
  let sign := fin 1
  let x2 := mul xf xf
  let x3 := mul xf x2
  let x5 := mul x3 x2
  let x7 := mul x5 x2
  mul sign (sub (add (sub xf (div x3 (fin 6))) (div x5 (fin 120)))
    (div x7 (fin 5040)))

/-- `cos4Term`. -/
def cos4Term (x : GoFloat) : GoFloat :=
  let xf := cosReduce x
  let x2 := mul xf xf
  let x4 := mul x2 x2
  let x6 := mul x4 x2
  sub (add (sub (fin 1) (div x2 (fin 2))) (div x4 (fin 24))) (div x6 (fin 720))

/-- `sec4Term`. -/
def sec4Term (x : GoFloat) : GoFloat := div (fin 1) (cos4Term x)

/-- `csc4Term`. -/
def csc4Term (x : GoFloat) : GoFloat := div (fin 1) (sin4Term x)

/-- `sin5Term`. -/
def sin5Term (x : GoFloat) : GoFloat :=
  let xf := sinReduce x
  let sign := fin 1
  let x2 := mul xf xf
  let x3 := mul xf x2
  let x5 := mul x3 x2
  let x7 := mul x5 x2
  let x9 := mul x7 x2
  mul sign (add (sub (add (sub xf (div x3 (fin 6))) (div x5 (fin 120)))
    (div x7 (fin 5040))) (div x9 (fin 362880)))

/-- `cos5Term`. -/
def cos5Term (x : GoFloat) : GoFloat :=
  let xf := cosReduce x
  let x2 := mul xf xf
  let x4 := mul x2 x2
  let x6 := mul x4 x2
  let x8 := mul x6 x2
  add (sub (add (sub (fin 1) (div x2 (fin 2))) (div x4 (fin 24)))
    (div x6 (fin 720))) (div x8 (fin 40320))

/-- `sec5Term`. -/
def sec5Term (x : GoFloat) : GoFloat := div (fin 1) (cos5Term x)

/-- `csc5Term`. -/
def csc5Term (x : GoFloat) : GoFloat := div (fin 1) (sin5Term x)

/-- `sin6Term`. -/
def sin6Term (x : GoFloat) : GoFloat :=
  let xf := sinReduce x
  let sign := fin 1
  let x2 := mul xf xf
  let x3 := mul xf x2
  let x5 := mul x3 x2
  let x7 := mul x5 x2
  let x9 := mul x7 x2
  let x11 := mul x9 x2
  mul sign (sub (add (sub (add (sub xf (div x3 (fin 6))) (div x5 (fin 120)))
    (div x7 (fin 5040))) (div x9 (fin 362880))) (div x11 (fin 39916800)))

/-- `cos6Term`. -/
def cos6Term (x : GoFloat) : GoFloat :=
  let xf := cosReduce x
  let x2 := mul xf xf
  let x4 := mul x2 x2
  let x6 := mul x4 x2
  let x8 := mul x6 x2
  let x10 := mul x8 x2
  sub (add (sub (add (sub (fin 1) (div x2 (fin 2))) (div x4 (fin 24)))
    (div x6 (fin 720))) (div x8 (fin 40320))) (div x10 (fin 3628800))

/-- `sec6Term`. -/
def sec6Term (x : GoFloat) : GoFloat := div (fin 1) (cos6Term x)

/-- `csc6Term`. -/
def csc6Term (x : GoFloat) : GoFloat := div (fin 1) (sin6Term x)

/-- `sin7Term`. -/
def sin7Term (x : GoFloat) : GoFloat :=
  let xf := sinReduce x
  let sign := fin 1
  let x2 := mul xf xf
  let x3 := mul xf x2
  let x5 := mul x3 x2
  let x7 := mul x5 x2
  let x9 := mul x7 x2
  let x11 := mul x9 x2
  let x13 := mul x11 x2
  mul sign (add (sub (add (sub (add (sub xf (div x3 (fin 6)))
    (div x5 (fin 120))) (div x7 (fin 5040))) (div x9 (fin 362880)))
    (div x11 (fin 39916800))) (div x13 (fin 6227020800)))

/-- `cos7Term`. -/
def cos7Term (x : GoFloat) : GoFloat :=
  let xf := cosReduce x
  let x2 := mul xf xf
  let x4 := mul x2 x2
  let x6 := mul x4 x2
  let x8 := mul x6 x2
  let x10 := mul x8 x2
  let x12 := mul x10 x2
  add (sub (add (sub (add (sub (fin 1) (div x2 (fin 2))) (div x4 (fin 24)))
    (div x6 (fin 720))) (div x8 (fin 40320))) (div x10 (fin 3628800)))
    (div x12 (fin 479001600))

/-- `sec7Term`. -/
def sec7Term (x : GoFloat) : GoFloat := div (fin 1) (cos7Term x)

/-- `csc7Term`. -/
def csc7Term (x : GoFloat) : GoFloat := div (fin 1) (sin7Term x)

/-- `Sin` from `src/internal/approx/trig.go`: Fast=3, Balanced=5, High=7
terms; the switch is on the raw precision with a default of 5 terms. -/
def Sin (x : GoFloat) (prec : ℤ) : GoFloat :=
  if prec = PrecisionAuto ∨ prec = PrecisionBalanced then sin5Term x
  else if prec = PrecisionFast then sin3Term x
  else if prec = PrecisionHigh then sin7Term x
  else sin5Term x

/-- `Cos`. -/
def Cos (x : GoFloat) (prec : ℤ) : GoFloat :=
  if prec = PrecisionAuto ∨ prec = PrecisionBalanced then cos5Term x
  else if prec = PrecisionFast then cos3Term x
  else if prec = PrecisionHigh then cos7Term x
  else cos5Term x

/-- `Sec`. -/
def Sec (x : GoFloat) (prec : ℤ) : GoFloat :=
  if prec = PrecisionAuto ∨ prec = PrecisionBalanced then sec5Term x
  else if prec = PrecisionFast then sec3Term x
  else if prec = PrecisionHigh then sec7Term x
  else sec5Term x

/-- `Csc`. -/
def Csc (x : GoFloat) (prec : ℤ) : GoFloat :=
  if prec = PrecisionAuto ∨ prec = PrecisionBalanced then csc5Term x
  else if prec = PrecisionFast then csc3Term x
  else if prec = PrecisionHigh then csc7Term x
  else csc5Term x

/-- The tangent range reduction repeated at the top of every `tanNTerm`
kernel: reduce modulo `π` into `[0, π)`, fold `( π/2, π)` down with a sign
flip, then fold `(π/4, π/2]` with the complementary identity, setting the
reciprocal flag.  Returns the reduced argument, the sign factor and the
reciprocal flag. -/
def tanReduce (x : GoFloat) : GoFloat × ℚ × Bool :=
  let a0 := goMod x (fin goPi)
  let a := if blt a0 (fin 0) then add a0 (fin goPi) else a0
  let p1 :=
    if blt (fin (goPi / 2)) a then
      (sub (fin (goPi / 2)) (sub a (fin (goPi / 2))), (-1 : ℚ))
    else (a, 1)
  if blt (fin (goPi / 4)) p1.1 then ((sub (fin (goPi / 2)) p1.1, p1.2, true))
  else (p1.1, p1.2, false)

/-- `tan2Term` from the tangent source file. -/
def tan2Term (x : GoFloat) : GoFloat :=
  match tanReduce x with
  | (xf, sgn, recip) =>
    let x2 := mul xf xf
    let x3 := mul xf x2
    let result := add xf (div x3 (fin 3))
    mul (fin sgn) (if recip then div (fin 1) result else result)

/-- `cotan2Term`: `1 / tan2Term(x)`. -/
def cotan2Term (x : GoFloat) : GoFloat := div (fin 1) (tan2Term x)

/-- `tan3Term`. -/
def tan3Term (x : GoFloat) : GoFloat :=
  match tanReduce x with
  | (xf, sgn, recip) =>
    let x2 := mul xf xf
    let x3 := mul xf x2
    let x5 := mul x3 x2
    let result := add (add xf (div x3 (fin 3))) (div (mul (fin 2) x5) (fin 15))
    mul (fin sgn) (if recip then div (fin 1) result else result)

/-- `cotan3Term`. -/
def cotan3Term (x : GoFloat) : GoFloat := div (fin 1) (tan3Term x)

/-- `tan4Term` (defined in the source, but not selected by any tier of
`Tan`). -/
def tan4Term (x : GoFloat) : GoFloat :=
  match tanReduce x with
  | (xf, sgn, recip) =>
    let x2 := mul xf xf
    let x3 := mul xf x2
    let x5 := mul x3 x2
    let x7 := mul x5 x2
    let result := add (add (add xf (div x3 (fin 3)))
      (div (mul (fin 2) x5) (fin 15))) (div (mul (fin 17) x7) (fin 315))
    mul (fin sgn) (if recip then div (fin 1) result else result)

/-- `cotan4Term`. -/
def cotan4Term (x : GoFloat) : GoFloat := div (fin 1) (tan4Term x)

/-- `tan6Term`. -/
def tan6Term (x : GoFloat) : GoFloat :=
  match tanReduce x with
  | (xf, sgn, recip) =>
    let x2 := mul xf xf
    let x3 := mul xf x2
    let x5 := mul x3 x2
    let x7 := mul x5 x2
    let x9 := mul x7 x2
    let x11 := mul x9 x2
    let result := add (add (add (add (add xf (div x3 (fin 3)))
      (div (mul (fin 2) x5) (fin 15))) (div (mul (fin 17) x7) (fin 315)))
      (div (mul (fin 62) x9) (fin 2835)))
      (div (mul (fin 1382) x11) (fin 155925))
    mul (fin sgn) (if recip then div (fin 1) result else result)

/-- `cotan6Term`. -/
def cotan6Term (x : GoFloat) : GoFloat := div (fin 1) (tan6Term x)

/-- `Tan` from the tangent source file: Fast selects `tan2Term`, Balanced
`tan3Term`, High `tan6Term`; every other value (including `Auto`) falls to
the default branch, `tan3Term`. -/
def Tan (x : GoFloat) (prec : ℤ) : GoFloat :=
  if prec = PrecisionFast then tan2Term x
  else if prec = PrecisionBalanced then tan3Term x
  else if prec = PrecisionHigh then tan6Term x
  else tan3Term x

/-- `Cotan`. -/
def Cotan (x : GoFloat) (prec : ℤ) : GoFloat :=
  if prec = PrecisionFast then cotan2Term x
  else if prec = PrecisionBalanced then cotan3Term x
  else if prec = PrecisionHigh then cotan6Term x
  else cotan3Term x

/-- `arctan3Term` from the inverse-trigonometric source file. -/
def arctan3Term (x : GoFloat) : GoFloat :=
  let x2 := mul x x
  let x3 := mul x2 x
  let x5 := mul x3 x2
  add (sub x (div x3 (fin 3))) (div x5 (fin 5))

/-- `arctan6Term`. -/
def arctan6Term (x : GoFloat) : GoFloat :=
  let x2 := mul x x
  let x3 := mul x2 x
  let x5 := mul x3 x2
  let x7 := mul x5 x2
  let x9 := mul x7 x2
  let x11 := mul x9 x2
  sub (add (sub (add (sub x (div x3 (fin 3))) (div x5 (fin 5)))
    (div x7 (fin 7))) (div x9 (fin 9))) (div x11 (fin 11))

/-- `arccotan3Term`: `π/2 - arctan3Term(x)`. -/
def arccotan3Term (x : GoFloat) : GoFloat :=
  sub (div (fin goPi) (fin 2)) (arctan3Term x)

/-- `arccotan6Term`. -/
def arccotan6Term (x : GoFloat) : GoFloat :=
  sub (div (fin goPi) (fin 2)) (arctan6Term x)

/-- `math.Sqrt` (the exact library square root used inside `arccosNTerm`).
Special values follow the IEEE contract (NaN for NaN or negative input,
`+Inf` for `+Inf`).  On finite positive rationals the correctly rounded
float64 square root is modelled by `Rat.sqrt`; no theorem in this file
depends on the finite values this produces. -/
def goSqrt : GoFloat → GoFloat
  | GoFloat.nan => GoFloat.nan
  | GoFloat.inf b => if b then GoFloat.inf true else GoFloat.nan
  | GoFloat.fin q => if q < 0 then GoFloat.nan else GoFloat.fin (Rat.sqrt q)

/-- `arccos3Term`: the complementary arcsine series for `|x| < 0.5`, the
half-angle identity through `math.Sqrt` otherwise. -/
def arccos3Term (x : GoFloat) : GoFloat :=
  if blt (fin (-(1 / 2))) x && blt x (fin (1 / 2)) then
    let x2 := mul x x
    let x3 := mul x2 x
    let x5 := mul x3 x2
    let arcsinX := add (add x (div x3 (fin 6))) (div (mul (fin 3) x5) (fin 40))
    sub (div (fin goPi) (fin 2)) arcsinX
  else
    let arg := goSqrt (div (sub (fin 1) x) (fin 2))
    let arg2 := mul arg arg
    let arg3 := mul arg2 arg
    let arg5 := mul arg3 arg2
    let arcsinArg :=
      add (add arg (div arg3 (fin 6))) (div (mul (fin 3) arg5) (fin 40))
    mul (fin 2) arcsinArg

/-- `arccos6Term`. -/
def arccos6Term (x : GoFloat) : GoFloat :=
  if blt (fin (-(1 / 2))) x && blt x (fin (1 / 2)) then
    let x2 := mul x x
    let x3 := mul x2 x
    let x5 := mul x3 x2
    let x7 := mul x5 x2
    let x9 := mul x7 x2
    let x11 := mul x9 x2
    let arcsinX := add (add (add (add (add x (div x3 (fin 6)))
      (div (mul (fin 3) x5) (fin 40))) (div (mul (fin 15) x7) (fin 336)))
      (div (mul (fin 105) x9) (fin 3456)))
      (div (mul (fin 945) x11) (fin 42240))
    sub (div (fin goPi) (fin 2)) arcsinX
  else
    let arg := goSqrt (div (sub (fin 1) x) (fin 2))
    let arg2 := mul arg arg
    let arg3 := mul arg2 arg
    let arg5 := mul arg3 arg2
    let arg7 := mul arg5 arg2
    let arg9 := mul arg7 arg2
    let arg11 := mul arg9 arg2
    let arcsinArg := add (add (add (add (add arg (div arg3 (fin 6)))
      (div (mul (fin 3) arg5) (fin 40))) (div (mul (fin 15) arg7) (fin 336)))
      (div (mul (fin 105) arg9) (fin 3456)))
      (div (mul (fin 945) arg11) (fin 42240))
    mul (fin 2) arcsinArg

/-- `Arctan`: Auto, Fast and Balanced select the 3-term kernel, High the
6-term kernel; the default is the 3-term kernel. -/
def Arctan (x : GoFloat) (prec : ℤ) : GoFloat :=
  if prec = PrecisionAuto ∨ prec = PrecisionFast ∨ prec = PrecisionBalanced then
    arctan3Term x
  else if prec = PrecisionHigh then arctan6Term x
  else arctan3Term x

/-- `Arccotan`. -/
def Arccotan (x : GoFloat) (prec : ℤ) : GoFloat :=
  if prec = PrecisionAuto ∨ prec = PrecisionFast ∨ prec = PrecisionBalanced then
    arccotan3Term x
  else if prec = PrecisionHigh then arccotan6Term x
  else arccotan3Term x

/-- `Arccos`. -/
def Arccos (x : GoFloat) (prec : ℤ) : GoFloat :=
  if prec = PrecisionAuto ∨ prec = PrecisionFast ∨ prec = PrecisionBalanced then
    arccos3Term x
  else if prec = PrecisionHigh then arccos6Term x
  else arccos3Term x

/-- Modelled from the spec: `power.go` calls a one-argument `Ln`, whose
definition is not among the provided sources.  Section 6 of the spec says
composition operations "compose fixed-tier sub-kernels" and that the
default-precision convenience form is "equivalent to passing Auto", so
`Ln` is modelled as the Auto-tier `Log`. -/
def Ln (x : GoFloat) : GoFloat := Log x PrecisionAuto

/-- Modelled from the spec: `power.go` calls a one-argument `Exp`, whose
definition is not among the provided sources; modelled as the Auto-tier
`Exp` (see `Ln`). -/
def ExpDefault (x : GoFloat) : GoFloat := Exp x PrecisionAuto

/-- Modelled from the spec: `power.go` calls `Sqrt2`, whose definition is
not among the provided sources; the spec says `n == 2` "calls the dedicated
square-root kernel directly", so `Sqrt2` is modelled as the Auto-tier
`Sqrt`. -/
def Sqrt2 (x : GoFloat) : GoFloat := Sqrt x PrecisionAuto

/-- `Power` from `src/internal/approx/power.go`: special cases for
non-positive bases and for exponents 0 and 1, then the exp/log
composition `Exp(exponent * Ln(base))`. -/
def Power (base exponent : GoFloat) : GoFloat :=
  if ble base (fin 0) then
    if blt base (fin 0) then nan
    else if beq exponent (fin 0) then fin 1
    else if blt (fin 0) exponent then fin 0
    else inf true
  else if beq exponent (fin 0) then fin 1
  else if beq exponent (fin 1) then base
  else ExpDefault (mul exponent (Ln base))

/-- `Root` from `src/internal/approx/power.go`. -/
def Root (value : GoFloat) (n : ℤ) : GoFloat :=
  if n = 0 then nan
  else if n = 1 then value
  else if blt value (fin 0) then nan
  else if beq value (fin 0) then fin 0
  else if n = 2 then Sqrt2 value
  else Power value (div (fin 1) (fin (n : ℚ)))

/-- The binary-exponentiation loop of `IntPower` (`for n > 0 { ... }`). -/
def binExpLoop (result currentBase : GoFloat) (n : ℕ) : GoFloat :=
  if h : n = 0 then result
  else
    binExpLoop (if n % 2 = 1 then mul result currentBase else result)
      (mul currentBase currentBase) (n / 2)
termination_by n
decreasing_by exact Nat.div_lt_self (Nat.pos_of_ne_zero h) (by omega)

/-- `IntPower` from `src/internal/approx/power.go`: special cases, the
reciprocal rule for negative exponents, and binary exponentiation for
positive exponents. -/
def IntPower (base : GoFloat) (exponent : ℤ) : GoFloat :=
  if exponent = 0 then fin 1
  else if exponent = 1 then base
  else if beq base (fin 0) then (if 0 < exponent then fin 0 else inf true)
  else if exponent < 0 then div (fin 1) (IntPower base (-exponent))
  else binExpLoop (fin 1) base exponent.toNat
termination_by (exponent.natAbs, (if exponent < 0 then 1 else 0 : ℕ))
decreasing_by
  simp only [Int.natAbs_neg]
  have hneg : exponent < 0 := by assumption
  have h1 : ¬(-exponent < 0) := by omega
  simp only [hneg, h1, if_true, if_false]
  exact Prod.Lex.right _ (by omega)

/-! ### Helper lemmas -/

lemma beq_fin_zero_iff (x : GoFloat) : beq x (fin 0) = true ↔ x = fin 0 := by
  cases x <;> simp [beq]

lemma beq_refl_of_ne_nan (x : GoFloat) (h : x ≠ nan) : beq x x = true := by
  cases x <;> simp_all [beq]

lemma sqrtBabylonian_nan (n : ℕ) : sqrtBabylonian nan n = nan := rfl

lemma sqrtBabylonian_zero (n : ℕ) : sqrtBabylonian (fin 0) n = fin 0 := rfl

lemma sqrtBabylonian_posinf (n : ℕ) : sqrtBabylonian (inf true) n = inf true := rfl

lemma sqrtBabylonian_neg (q : ℚ) (hq : q < 0) (n : ℕ) :
    sqrtBabylonian (fin q) n = nan := by
  simp [sqrtBabylonian, beq, blt, hq, hq.ne]

lemma invSqrtQuakeNR_nan (n : ℕ) : invSqrtQuakeNR nan n = nan := rfl

lemma invSqrtQuakeNR_zero (n : ℕ) : invSqrtQuakeNR (fin 0) n = inf true := rfl

lemma invSqrtQuakeNR_posinf (n : ℕ) : invSqrtQuakeNR (inf true) n = fin 0 := rfl

lemma invSqrtQuakeNR_neg (q : ℚ) (hq : q < 0) (n : ℕ) :
    invSqrtQuakeNR (fin q) n = nan := by
  simp [invSqrtQuakeNR, beq, blt, hq, hq.ne]

/-- Every `Sqrt` tier is some `sqrtBabylonian` iteration count. -/
lemma Sqrt_eq_babylonian (x : GoFloat) (p : ℤ) :
    ∃ n : ℕ, Sqrt x p = sqrtBabylonian x n := by
  unfold Sqrt selectImpl sqrtFast sqrtBalanced sqrtHigh
  split_ifs <;> [exact ⟨1, rfl⟩; exact ⟨2, rfl⟩; exact ⟨3, rfl⟩; exact ⟨2, rfl⟩]

/-- Every `InvSqrt` tier is some `invSqrtQuakeNR` iteration count. -/
lemma InvSqrt_eq_quakeNR (x : GoFloat) (p : ℤ) :
    ∃ n : ℕ, InvSqrt x p = invSqrtQuakeNR x n := by
  unfold InvSqrt selectImpl invSqrtFast invSqrtBalanced invSqrtHigh
  split_ifs <;> [exact ⟨1, rfl⟩; exact ⟨2, rfl⟩; exact ⟨3, rfl⟩; exact ⟨2, rfl⟩]

/-! ### C10 -/

/-- C10: `Root(value, 1)` returns the value unchanged for every input,
including negative values and NaN, because the `n == 1` identity branch is
checked before the negative-value rule. -/
theorem c10_root_order_one_identity (v : GoFloat) : Root v 1 = v := rfl

/-! ### C9 -/

/-- C9: for every input and every precision value, `Sec`, `Csc` and `Cotan`
are exactly `1 / Cos`, `1 / Sin` and `1 / Tan` at the same precision: each
reciprocal dispatch selects the reciprocal of the same-term-count base
kernel. -/
theorem c9_reciprocal_identities_exact (x : GoFloat) (p : ℤ) :
    Sec x p = div (fin 1) (Cos x p) ∧ Csc x p = div (fin 1) (Sin x p) ∧
      Cotan x p = div (fin 1) (Tan x p) := by
  refine ⟨?_, ?_, ?_⟩
  · unfold Sec Cos
    split_ifs <;> rfl
  · unfold Csc Sin
    split_ifs <;> rfl
  · unfold Cotan Tan
    split_ifs <;> rfl

/-! ### C8 -/

/-- The tangent range reduction leaves `1/2` (which is inside `[0, π/4]`)
unchanged, with no sign or reciprocal flag. -/
lemma tanReduce_at_half : tanReduce (fin (1 / 2)) = (fin (1 / 2), 1, false) := by
  norm_num [tanReduce, goMod, qtrunc, blt, beq, GoFloat.add, GoFloat.sub,
    GoFloat.mul, GoFloat.div, GoFloat.neg, goPi]

lemma tan2Term_at_half : tan2Term (fin (1 / 2)) = fin (13 / 24) := by
  rw [tan2Term, tanReduce_at_half]
  norm_num [GoFloat.add, GoFloat.mul, GoFloat.div]

lemma tan3Term_at_half : tan3Term (fin (1 / 2)) = fin (131 / 240) := by
  rw [tan3Term, tanReduce_at_half]
  norm_num [GoFloat.add, GoFloat.mul, GoFloat.div]

lemma tan4Term_at_half : tan4Term (fin (1 / 2)) = fin (4405 / 8064) := by
  rw [tan4Term, tanReduce_at_half]
  norm_num [GoFloat.add, GoFloat.mul, GoFloat.div]

lemma tan6Term_at_half :
    tan6Term (fin (1 / 2)) = fin (87226511 / 159667200) := by
  rw [tan6Term, tanReduce_at_half]
  norm_num [GoFloat.add, GoFloat.mul, GoFloat.div]

/-- C8 counterexample: at the input `1/2`, no precision tier's `Tan` agrees
with the 4-term kernel — the four tiers select the 2-, 3-, 3- and 6-term
kernels, so the claim that every term count in {2, 3, 4, 6} is selected by
some tier is false. -/
theorem c8_no_tier_selects_the_4term_kernel :
    Tan (fin (1 / 2)) PrecisionAuto ≠ tan4Term (fin (1 / 2)) ∧
      Tan (fin (1 / 2)) PrecisionFast ≠ tan4Term (fin (1 / 2)) ∧
      Tan (fin (1 / 2)) PrecisionBalanced ≠ tan4Term (fin (1 / 2)) ∧
      Tan (fin (1 / 2)) PrecisionHigh ≠ tan4Term (fin (1 / 2)) := by
  have hauto : Tan (fin (1 / 2)) PrecisionAuto = tan3Term (fin (1 / 2)) := rfl
  have hfast : Tan (fin (1 / 2)) PrecisionFast = tan2Term (fin (1 / 2)) := rfl
  have hbal : Tan (fin (1 / 2)) PrecisionBalanced = tan3Term (fin (1 / 2)) := rfl
  have hhigh : Tan (fin (1 / 2)) PrecisionHigh = tan6Term (fin (1 / 2)) := rfl
  rw [hauto, hfast, hbal, hhigh, tan2Term_at_half, tan3Term_at_half,
    tan4Term_at_half, tan6Term_at_half]
  refine ⟨?_, ?_, ?_, ?_⟩ <;> simp only [ne_eq, GoFloat.fin.injEq] <;> norm_num

/-- C8 amended: the tangent dispatch maps Fast to the 2-term kernel,
Balanced to the 3-term kernel, High to the 6-term kernel, and Auto (through
the default branch) to the 3-term kernel; the 4-term kernel is defined in
the source but selected by no tier. -/
theorem c8_tan_tier_selection (x : GoFloat) :
    Tan x PrecisionAuto = tan3Term x ∧ Tan x PrecisionFast = tan2Term x ∧
      Tan x PrecisionBalanced = tan3Term x ∧ Tan x PrecisionHigh = tan6Term x :=
  ⟨rfl, rfl, rfl, rfl⟩

/-! ### C6 -/

/-- C6: for every base (including 0, negative values and NaN) and every
positive integer `n`, `IntPower(base, -n)` is exactly the reciprocal
`1 / IntPower(base, n)`. -/
theorem c6_intpower_negative_exponent_reciprocal (base : GoFloat) (n : ℕ)
    (h : 1 ≤ n) :
    IntPower base (-(n : ℤ)) = div (fin 1) (IntPower base (n : ℤ)) := by
  have e0 : ¬(-(n : ℤ) = 0) := by omega
  have e1 : ¬(-(n : ℤ) = 1) := by omega
  by_cases hb : base = fin 0
  · subst hb
    have hz : beq (fin (0 : ℚ)) (fin 0) = true := by simp [beq]
    have e5 : ¬((0 : ℤ) < -(n : ℤ)) := by omega
    have hL : IntPower (fin 0) (-(n : ℤ)) = inf true := by
      rw [IntPower]
      simp [e0, e1, e5, hz]
    have hR : IntPower (fin 0) ((n : ℤ)) = fin 0 := by
      rw [IntPower]
      rcases eq_or_lt_of_le h with h1 | h2
      · simp [← h1]
      · have e2 : ¬((n : ℤ) = 0) := by omega
        have e3 : ¬((n : ℤ) = 1) := by omega
        have e4 : (0 : ℤ) < (n : ℤ) := by omega
        simp [e2, e3, e4, hz]
    rw [hL, hR]
    norm_num [div]
  · rw [IntPower]
    have e2 : (-(n : ℤ)) < 0 := by omega
    have hbq : beq base (fin 0) = false := by
      rcases (Bool.eq_false_or_eq_true (beq base (fin 0))) with h' | h'
      · exact absurd ((beq_fin_zero_iff base).mp h') hb
      · exact h'
    rw [if_neg e0, if_neg e1, hbq]
    simp only [Bool.false_eq_true, if_false, if_pos e2, neg_neg]

/-- Witness for C6 at `base = 2`, `n = 3`. -/
theorem c6_intpower_negative_exponent_reciprocal_witness :
    1 ≤ 3 ∧ IntPower (fin 2) (-(3 : ℕ) : ℤ) = div (fin 1) (IntPower (fin 2) ((3 : ℕ) : ℤ)) :=
  ⟨by norm_num, c6_intpower_negative_exponent_reciprocal (fin 2) 3 (by norm_num)⟩

/-! ### C5 -/

/-- C5: `Power` returns NaN for every negative base regardless of exponent;
for base zero it returns 1 when the exponent is 0, 0 when the exponent is
positive, and `+Inf` when the exponent is negative. -/
theorem c5_power_nonpositive_base_cases (b e : GoFloat) :
    (blt b (fin 0) = true → Power b e = nan) ∧
      (b = fin 0 →
        (e = fin 0 → Power b e = fin 1) ∧
          (blt (fin 0) e = true → Power b e = fin 0) ∧
          (blt e (fin 0) = true → Power b e = inf true)) := by
  have hle00 : ble (fin (0 : ℚ)) (fin 0) = true := by simp [ble, beq]
  have hlt00 : ¬(blt (fin (0 : ℚ)) (fin 0) = true) := by simp [blt]
  constructor
  · intro hlt
    have hle : ble b (fin 0) = true := by
      unfold ble
      rw [hlt]
      rfl
    unfold Power
    rw [if_pos hle, if_pos hlt]
  · rintro rfl
    refine ⟨?_, ?_, ?_⟩
    · rintro rfl
      have hbeq : beq (fin (0 : ℚ)) (fin 0) = true := by simp [beq]
      unfold Power
      rw [if_pos hle00, if_neg hlt00, if_pos hbeq]
    · intro hpos
      have hne : ¬(beq e (fin 0) = true) := by
        intro h'
        rw [(beq_fin_zero_iff e).mp h'] at hpos
        simp [blt] at hpos
      unfold Power
      rw [if_pos hle00, if_neg hlt00, if_neg hne, if_pos hpos]
    · intro hneg
      have hne : ¬(beq e (fin 0) = true) := by
        intro h'
        rw [(beq_fin_zero_iff e).mp h'] at hneg
        simp [blt] at hneg
      have hnpos : ¬(blt (fin 0) e = true) := by
        cases e with
        | nan => simp [blt]
        | inf s => cases s <;> simp_all [blt]
        | fin q =>
            simp only [blt, decide_eq_true_eq] at hneg ⊢
            intro h'
            exact absurd (lt_trans hneg h') (lt_irrefl _)
      unfold Power
      rw [if_pos hle00, if_neg hlt00, if_neg hne, if_neg hnpos]

/-- Witness for C5: negative base and the three base-zero exponent signs. -/
theorem c5_power_nonpositive_base_cases_witness :
    Power (fin (-2)) (fin 3) = nan ∧ Power (fin 0) (fin 0) = fin 1 ∧
      Power (fin 0) (fin 2) = fin 0 ∧ Power (fin 0) (fin (-2)) = inf true := by
  refine ⟨(c5_power_nonpositive_base_cases (fin (-2)) (fin 3)).1 (by decide),
    ((c5_power_nonpositive_base_cases (fin 0) (fin 0)).2 rfl).1 rfl,
    ((c5_power_nonpositive_base_cases (fin 0) (fin 2)).2 rfl).2.1 (by decide),
    ((c5_power_nonpositive_base_cases (fin 0) (fin (-2))).2 rfl).2.2 (by decide)⟩

/-! ### C2 -/

/-- C2: the `Sqrt` and `InvSqrt` edge cases hold at every precision tier:
NaN propagates, negative inputs give NaN, `Sqrt(0) = 0` and
`InvSqrt(0) = +Inf`, `Sqrt(+Inf) = +Inf` and `InvSqrt(+Inf) = 0`. -/
theorem c2_sqrt_invsqrt_edge_cases (p : ℤ) :
    Sqrt nan p = nan ∧ (∀ q : ℚ, q < 0 → Sqrt (fin q) p = nan) ∧
      Sqrt (fin 0) p = fin 0 ∧ Sqrt (inf true) p = inf true ∧
      InvSqrt nan p = nan ∧ (∀ q : ℚ, q < 0 → InvSqrt (fin q) p = nan) ∧
      InvSqrt (fin 0) p = inf true ∧ InvSqrt (inf true) p = fin 0 := by
  refine ⟨?_, ?_, ?_, ?_, ?_, ?_, ?_, ?_⟩
  · obtain ⟨n, hn⟩ := Sqrt_eq_babylonian nan p
    rw [hn]
    exact sqrtBabylonian_nan n
  · intro q hq
    obtain ⟨n, hn⟩ := Sqrt_eq_babylonian (fin q) p
    rw [hn]
    exact sqrtBabylonian_neg q hq n
  · obtain ⟨n, hn⟩ := Sqrt_eq_babylonian (fin 0) p
    rw [hn]
    exact sqrtBabylonian_zero n
  · obtain ⟨n, hn⟩ := Sqrt_eq_babylonian (inf true) p
    rw [hn]
    exact sqrtBabylonian_posinf n
  · obtain ⟨n, hn⟩ := InvSqrt_eq_quakeNR nan p
    rw [hn]
    exact invSqrtQuakeNR_nan n
  · intro q hq
    obtain ⟨n, hn⟩ := InvSqrt_eq_quakeNR (fin q) p
    rw [hn]
    exact invSqrtQuakeNR_neg q hq n
  · obtain ⟨n, hn⟩ := InvSqrt_eq_quakeNR (fin 0) p
    rw [hn]
    exact invSqrtQuakeNR_zero n
  · obtain ⟨n, hn⟩ := InvSqrt_eq_quakeNR (inf true) p
    rw [hn]
    exact invSqrtQuakeNR_posinf n

/-- Witness for C2 at concrete tiers and a concrete negative input. -/
theorem c2_sqrt_invsqrt_edge_cases_witness :
    ((-2 : ℚ) < 0 ∧ Sqrt (fin (-2)) PrecisionHigh = nan) ∧
      ((-3 : ℚ) < 0 ∧ InvSqrt (fin (-3)) PrecisionFast = nan) :=
  ⟨⟨by norm_num, (c2_sqrt_invsqrt_edge_cases PrecisionHigh).2.1 (-2) (by norm_num)⟩,
    ⟨by norm_num,
      (c2_sqrt_invsqrt_edge_cases PrecisionFast).2.2.2.2.2.1 (-3) (by norm_num)⟩⟩

/-! ### C1 -/

/-- C1 counterexample: a zero exponent short-circuits before any NaN check,
so `Power(NaN, 0)` and `IntPower(NaN, 0)` return 1 and `Power(0, NaN)`
returns `+Inf` — NaN arguments are not propagated there. -/
theorem c1_nan_not_propagated_at_zero_exponent :
    Power nan (fin 0) = fin 1 ∧ IntPower nan 0 = fin 1 ∧
      Power (fin 0) nan = inf true := by
  refine ⟨?_, ?_, ?_⟩
  · unfold Power
    rw [if_neg (by simp [ble, blt, beq]), if_pos (by simp [beq])]
  · rw [IntPower]
    norm_num
  · unfold Power
    rw [if_pos (by simp [ble, beq]), if_neg (by simp [blt]),
      if_neg (by simp [beq]), if_neg (by simp [blt])]

/-- Once an operand of the binary-exponentiation loop is NaN, the loop
returns NaN for every positive remaining exponent. -/
lemma mul_nan_left (z : GoFloat) : mul nan z = nan := by
  cases z <;> rfl

lemma binExpLoop_nan (n : ℕ) (h : 1 ≤ n) (r : GoFloat) :
    binExpLoop r nan n = nan := by
  induction n using Nat.strong_induction_on generalizing r with
  | _ n ih =>
    rw [binExpLoop]
    rw [dif_neg (by omega : ¬(n = 0))]
    rcases Nat.lt_or_ge n 2 with h2 | h2
    · have hn1 : n = 1 := by omega
      subst hn1
      have h1 : (if (1 : ℕ) % 2 = 1 then mul r nan else r) = mul r nan := by
        norm_num
      rw [h1, binExpLoop, dif_pos (by norm_num : (1 : ℕ) / 2 = 0)]
      cases r <;> rfl
    · have hmm : mul nan nan = nan := rfl
      rw [hmm]
      exact ih (n / 2) (Nat.div_lt_self (by omega) (by omega)) (by omega) _

/-- `IntPower` propagates a NaN base for every nonzero exponent. -/
lemma IntPower_nan (m : ℤ) (hm : m ≠ 0) : IntPower nan m = nan := by
  have hpos : ∀ j : ℤ, 0 < j → IntPower nan j = nan := by
    intro j hj
    by_cases h1 : j = 1
    · rw [IntPower, if_neg (by omega), if_pos h1]
    · rw [IntPower, if_neg (by omega), if_neg h1]
      have hb : beq nan (fin 0) = false := rfl
      rw [hb]
      simp only [Bool.false_eq_true, if_false]
      rw [if_neg (by omega : ¬(j < 0))]
      exact binExpLoop_nan j.toNat (by omega) (fin 1)
  rcases lt_trichotomy m 0 with hneg | h0 | hp
  · rw [IntPower, if_neg hm, if_neg (by omega)]
    have hb : beq nan (fin 0) = false := rfl
    rw [hb]
    simp only [Bool.false_eq_true, if_false]
    rw [if_pos hneg, hpos (-m) (by omega)]
    rfl
  · exact absurd h0 hm
  · exact hpos m hp

/-- `Power` propagates a NaN base for every nonzero exponent. -/
lemma Power_nan_base (y : GoFloat) (hy : y ≠ fin 0) : Power nan y = nan := by
  unfold Power
  rw [if_neg (by simp [ble, blt, beq])]
  rw [if_neg (fun h' => hy ((beq_fin_zero_iff y).mp h'))]
  by_cases h3 : beq y (fin 1) = true
  · rw [if_pos h3]
  · rw [if_neg h3]
    have hln : Ln nan = nan := rfl
    rw [hln]
    have hm : mul y nan = nan := by cases y <;> rfl
    rw [hm]
    rfl

/-- C1 amended: every exposed operation propagates NaN at every precision
value, except the zero-exponent short-circuits of `Power` / `IntPower` and
the zero-base short-circuit of `Power` exhibited by the counterexample. -/
theorem c1_nan_propagation_amended (p : ℤ) :
    Sqrt nan p = nan ∧ InvSqrt nan p = nan ∧ Log nan p = nan ∧
      Exp nan p = nan ∧ Sin nan p = nan ∧ Cos nan p = nan ∧ Sec nan p = nan ∧
      Csc nan p = nan ∧ Tan nan p = nan ∧ Cotan nan p = nan ∧
      Arctan nan p = nan ∧ Arccotan nan p = nan ∧ Arccos nan p = nan ∧
      (∀ y : GoFloat, y ≠ fin 0 → Power nan y = nan) ∧
      (∀ x : GoFloat, x ≠ fin 0 → Power x nan = nan) ∧
      (∀ k : ℤ, k ≠ 0 → IntPower nan k = nan) ∧
      (∀ n : ℤ, Root nan n = nan) := by
  refine ⟨?_, ?_, rfl, rfl, ?_, ?_, ?_, ?_, ?_, ?_, ?_, ?_, ?_, ?_, ?_, ?_, ?_⟩
  · obtain ⟨n, hn⟩ := Sqrt_eq_babylonian nan p
    rw [hn]
    exact sqrtBabylonian_nan n
  · obtain ⟨n, hn⟩ := InvSqrt_eq_quakeNR nan p
    rw [hn]
    exact invSqrtQuakeNR_nan n
  · unfold Sin
    split_ifs <;> rfl
  · unfold Cos
    split_ifs <;> rfl
  · unfold Sec
    split_ifs <;> rfl
  · unfold Csc
    split_ifs <;> rfl
  · unfold Tan
    split_ifs <;> rfl
  · unfold Cotan
    split_ifs <;> rfl
  · unfold Arctan
    split_ifs <;> rfl
  · unfold Arccotan
    split_ifs <;> rfl
  · unfold Arccos
    split_ifs <;> rfl
  · exact Power_nan_base
  · intro x hx
    cases x with
    | nan => exact Power_nan_base nan (by simp)
    | inf s =>
        cases s
        · unfold Power
          rw [if_pos (by simp [ble, blt]), if_pos (by simp [blt])]
        · unfold Power
          rw [if_neg (by simp [ble, blt, beq]), if_neg (by simp [beq]),
            if_neg (by simp [beq])]
          rfl
    | fin q =>
        have hq0 : q ≠ 0 := fun h => hx (by rw [h])
        rcases lt_trichotomy q 0 with hq | hq | hq
        · unfold Power
          rw [if_pos (by simp [ble, blt, hq]), if_pos (by simp [blt, hq])]
        · exact absurd hq hq0
        · unfold Power
          rw [if_neg (by simp [ble, blt, beq, hq0, not_lt.mpr (le_of_lt hq)]),
            if_neg (by simp [beq]), if_neg (by simp [beq]), mul_nan_left]
          rfl
  · exact IntPower_nan
  · intro n
    unfold Root
    by_cases h0 : n = 0
    · rw [if_pos h0]
    · rw [if_neg h0]
      by_cases h1 : n = 1
      · rw [if_pos h1]
      · rw [if_neg h1]
        rw [if_neg (by simp [blt]), if_neg (by simp [beq])]
        by_cases h2 : n = 2
        · rw [if_pos h2]
          obtain ⟨m, hm⟩ := Sqrt_eq_babylonian nan PrecisionAuto
          show Sqrt nan PrecisionAuto = nan
          rw [hm]
          exact sqrtBabylonian_nan m
        · rw [if_neg h2]
          have hncast : ((n : ℚ) ≠ 0) := by exact_mod_cast h0
          have hd : div (fin 1) (fin (n : ℚ)) = fin (1 / (n : ℚ)) := by
            simp [div, hncast]
          rw [hd]
          exact Power_nan_base _ (by
            simp only [ne_eq, fin.injEq]
            exact one_div_ne_zero (by exact_mod_cast h0))

/-- Witness for C1 (amended) at concrete tier and arguments. -/
theorem c1_nan_propagation_amended_witness :
    Sqrt nan PrecisionFast = nan ∧ Power nan (fin 2) = nan ∧
      Power (fin 2) nan = nan ∧ IntPower nan 5 = nan ∧ Root nan 3 = nan := by
  obtain ⟨h1, _, _, _, _, _, _, _, _, _, _, _, _, h14, h15, h16, h17⟩ :=
    c1_nan_propagation_amended PrecisionFast
  exact ⟨h1, h14 (fin 2) (by simp), h15 (fin 2) (by simp), h16 5 (by norm_num),
    h17 3⟩

/-! ### C3 -/

/-- The bit pattern of the smallest positive float64 subnormal is 1. -/
lemma float64bits_smallest_subnormal : float64bits ((2 : ℚ) ^ (-1074 : ℤ)) = 1 := by
  have hpos : (0 : ℚ) < (2 : ℚ) ^ (-1074 : ℤ) := by positivity
  have hlog : Int.log 2 ((2 : ℚ) ^ (-1074 : ℤ)) = -1074 := by
    have hcast : ((2 : ℕ) : ℚ) ^ (-1074 : ℤ) = (2 : ℚ) ^ (-1074 : ℤ) := by
      norm_num
    rw [← hcast, Int.log_zpow (by norm_num : (1 : ℕ) < 2)]
  have hprod : (2 : ℚ) ^ (-1074 : ℤ) * (2 : ℚ) ^ (1074 : ℤ) = 1 := by
    rw [← zpow_add₀ (by norm_num : (2 : ℚ) ≠ 0)]
    norm_num
  simp only [float64bits, not_le.mpr hpos, if_false, hlog]
  norm_num [hprod]

/-- C3: `Log` is wrong on float64 subnormal inputs.  At the smallest positive
subnormal `2⁻¹⁰⁷⁴ = (1/2)·2⁻¹⁰⁷³` (so the claimed decomposition has
`m = 1/2`, `e = -1073`), the code's bit extraction treats the subnormal
mantissa as if it carried an implicit leading 1 and uses the raw biased
exponent, producing `m̃ = (1 + 2⁻⁵²)/2`, `ẽ = -1022`; the returned value
`2·S(ỹ) + ẽ·ln2` differs from the claimed `2·S(y) + e·ln2` (the difference
is about `51·ln2 ≈ 35.4`). -/
theorem c3_log_subnormal_decomposition_bug :
    ((2 : ℚ) ^ (-1074 : ℤ) = (1 / 2) * (2 : ℚ) ^ (-1073 : ℤ)) ∧
      Log (fin ((2 : ℚ) ^ (-1074 : ℤ))) PrecisionFast =
        fin (2 * logSeries PrecisionFast
            (((1 + (1 : ℚ) * (1 / 2 ^ 52)) * (1 / 2) - 1) /
              ((1 + (1 : ℚ) * (1 / 2 ^ 52)) * (1 / 2) + 1)) +
          (-1022 : ℚ) * ln2Q) ∧
      2 * logSeries PrecisionFast
            (((1 + (1 : ℚ) * (1 / 2 ^ 52)) * (1 / 2) - 1) /
              ((1 + (1 : ℚ) * (1 / 2 ^ 52)) * (1 / 2) + 1)) +
          (-1022 : ℚ) * ln2Q ≠
        2 * logSeries PrecisionFast (((1 / 2 : ℚ) - 1) / ((1 / 2 : ℚ) + 1)) +
          (-1073 : ℚ) * ln2Q := by
  refine ⟨?_, ?_, ?_⟩
  · rw [show ((-1074 : ℤ)) = (-1) + (-1073) by norm_num,
      zpow_add₀ (by norm_num : (2 : ℚ) ≠ 0)]
    norm_num
  · have hpos : (0 : ℚ) < (2 : ℚ) ^ (-1074 : ℤ) := by positivity
    unfold Log
    rw [if_neg (by simp [beq]), if_neg (by simp [beq]; positivity),
      if_neg (by simp [blt]; positivity), if_neg (by simp [isInfP])]
    simp only [float64bits_smallest_subnormal]
    norm_num [normalizePrecision, isValidPrecision, PrecisionFast,
      PrecisionAuto, PrecisionBalanced, PrecisionHigh,
      Nat.shiftRight_eq_div_pow]
  · norm_num [logSeries, PrecisionFast, PrecisionHigh, ln2Q]

/-! ### C4 -/

/-- The smallest float32 value strictly above `ln(MaxFloat32)` (bit pattern
`0x42b17218`, value `11629080·2⁻¹⁷`): the float32 inputs beyond the
overflow threshold of the 32-bit width are exactly those `≥ expOvf32`. -/
def expOvf32 : ℚ := 11629080 / 131072

/-- The largest float32 value strictly below `ln(2⁻¹⁵⁰)` (bit pattern
`0xc2cff1b5`, value `-13627829·2⁻¹⁷`): the float32 inputs beyond the
underflow threshold of the 32-bit width are exactly those `≤ expUdf32`. -/
def expUdf32 : ℚ := -13627829 / 131072

lemma roundF32_zero : roundF32 (fin 0) = fin 0 := by simp [roundF32]

/-- Values at or beyond the binary32 overflow rounding boundary convert
to `+Inf`. -/
lemma roundF32_big (v : ℚ) (h : (2 - (2 : ℚ) ^ (-24 : ℤ)) * 2 ^ (127 : ℤ) ≤ v) :
    roundF32 (fin v) = inf true := by
  have hv : 0 < v := by
    have : (0 : ℚ) < (2 - (2 : ℚ) ^ (-24 : ℤ)) * 2 ^ (127 : ℤ) := by norm_num
    linarith
  have habs : |v| = v := abs_of_pos hv
  simp only [roundF32, habs]
  rw [if_neg hv.ne', if_pos h]
  simp [hv]

lemma roundNE_small (w : ℚ) (h0 : 0 < w) (h1 : w ≤ 1 / 2) : roundNE w = 0 := by
  have hfl : ⌊w⌋ = 0 := Int.floor_eq_zero_iff.mpr ⟨le_of_lt h0, by linarith⟩
  unfold roundNE
  rw [hfl]
  push_cast
  rw [sub_zero, if_neg (not_lt.mpr h1)]
  rcases lt_or_eq_of_le h1 with h2 | h2
  · rw [if_pos h2]
  · rw [if_neg (by rw [h2]; exact lt_irrefl _)]

/-- Positive values at or below `2⁻¹⁵⁰` convert to float32 zero. -/
lemma roundF32_small_pos (v : ℚ) (h0 : 0 < v) (h1 : v ≤ (2 : ℚ) ^ (-150 : ℤ)) :
    roundF32 (fin v) = fin 0 := by
  have habs : |v| = v := abs_of_pos h0
  have hlog : Int.log 2 v ≤ -150 := by
    have h1' : v ≤ ((2 : ℕ) : ℚ) ^ (-150 : ℤ) := by push_cast; exact h1
    have := Int.log_mono_right (b := 2) h0 h1'
    rwa [Int.log_zpow (by norm_num : (1 : ℕ) < 2)] at this
  have hnotbig : ¬((2 - (2 : ℚ) ^ (-24 : ℤ)) * 2 ^ (127 : ℤ) ≤ v) := by
    have h2 : (2 : ℚ) ^ (-150 : ℤ) < (2 - (2 : ℚ) ^ (-24 : ℤ)) * 2 ^ (127 : ℤ) := by
      norm_num
    push_neg
    linarith
  have hm : roundNE (v * (2 : ℚ) ^ (149 : ℤ)) = 0 := by
    apply roundNE_small
    · positivity
    · have hstep : (2 : ℚ) ^ (-150 : ℤ) * (2 : ℚ) ^ (149 : ℤ) = 1 / 2 := by
        rw [← zpow_add₀ (by norm_num : (2 : ℚ) ≠ 0)]
        norm_num
      calc v * (2 : ℚ) ^ (149 : ℤ)
          ≤ (2 : ℚ) ^ (-150 : ℤ) * (2 : ℚ) ^ (149 : ℤ) := by
            have : (0 : ℚ) < (2 : ℚ) ^ (149 : ℤ) := by positivity
            exact mul_le_mul_of_nonneg_right h1 (le_of_lt this)
        _ = 1 / 2 := hstep
  simp only [roundF32, habs]
  rw [if_neg h0.ne', if_neg hnotbig, if_pos (by omega : Int.log 2 v < -126), hm]
  simp [not_lt.mpr (le_of_lt h0)]

set_option maxHeartbeats 2000000 in
/-- On `[-0.3466, 0.3466]` every tier's `expPoly` lies in `[1/2, 2]`. -/
lemma expPoly_bounds (np : ℤ) (r : ℚ) (h1 : -(3466 / 10000) ≤ r)
    (h2 : r ≤ 3466 / 10000) : 1 / 2 ≤ expPoly r np ∧ expPoly r np ≤ 2 := by
  have hb1 : (0 : ℚ) ≤ r + 3466 / 10000 := by linarith
  have hb2 : (0 : ℚ) ≤ 3466 / 10000 - r := by linarith
  unfold expPoly
  split_ifs <;> constructor <;>
    nlinarith [sq_nonneg r, sq_nonneg (r * r), sq_nonneg (r * r * r),
      mul_nonneg hb1 (sq_nonneg r), mul_nonneg hb2 (sq_nonneg r),
      mul_nonneg hb1 (sq_nonneg (r * r)), mul_nonneg hb2 (sq_nonneg (r * r)),
      mul_nonneg hb1 (sq_nonneg (r * r * r)),
      mul_nonneg hb2 (sq_nonneg (r * r * r)),
      mul_nonneg (mul_nonneg hb1 hb2) (sq_nonneg r),
      mul_nonneg (mul_nonneg hb1 hb2) (sq_nonneg (r * r)),
      mul_nonneg hb1 hb2]

set_option maxHeartbeats 1000000 in
/-- For nonnegative reduced arguments every tier's `expPoly` is at least 1. -/
lemma expPoly_ge_one (np : ℤ) (r : ℚ) (h0 : 0 ≤ r) :
    1 ≤ expPoly r np := by
  unfold expPoly
  split_ifs <;>
    nlinarith [sq_nonneg r, sq_nonneg (r * r), sq_nonneg (r * r * r),
      mul_nonneg h0 (sq_nonneg r), mul_nonneg h0 (sq_nonneg (r * r)),
      mul_nonneg h0 (sq_nonneg (r * r * r))]

set_option maxHeartbeats 2000000 in
/-- For nonpositive reduced arguments every tier's `expPoly` is at most 1. -/
lemma expPoly_le_one (np : ℤ) (r : ℚ) (h1 : -(3466 / 10000) ≤ r) (h0 : r ≤ 0) :
    expPoly r np ≤ 1 := by
  have hb1 : (0 : ℚ) ≤ r + 3466 / 10000 := by linarith
  have hb2 : (0 : ℚ) ≤ 3466 / 10000 - r := by linarith
  have hneg : (0 : ℚ) ≤ -r := by linarith
  unfold expPoly
  split_ifs <;>
    nlinarith [sq_nonneg r, sq_nonneg (r * r), sq_nonneg (r * r * r),
      mul_nonneg hneg (sq_nonneg r), mul_nonneg hneg (sq_nonneg (r * r)),
      mul_nonneg hneg (sq_nonneg (r * r * r)), mul_nonneg hb1 hneg,
      mul_nonneg (mul_nonneg hb1 hb2) (sq_nonneg r),
      mul_nonneg (mul_nonneg hb1 hb2) (sq_nonneg (r * r))]

/-- The reduced argument `r = q - k·ln2` with `k = ⌊q·invLn2 + 1/2⌋` stays
within `[-0.3466, 0.3466]` for every `q` in the clamped range. -/
lemma exp_reduced_arg_bounds (q : ℚ) (hq1 : -746 ≤ q) (hq2 : q ≤ 710) :
    -(3466 / 10000) ≤ q - (⌊q * invLn2Q + 1 / 2⌋ : ℤ) * ln2Q ∧
      q - (⌊q * invLn2Q + 1 / 2⌋ : ℤ) * ln2Q ≤ 3466 / 10000 := by
  have hfl : ((⌊q * invLn2Q + 1 / 2⌋ : ℤ) : ℚ) ≤ q * invLn2Q + 1 / 2 :=
    Int.floor_le _
  have hfu : q * invLn2Q + 1 / 2 < (⌊q * invLn2Q + 1 / 2⌋ : ℤ) + 1 :=
    Int.lt_floor_add_one _
  simp only [invLn2Q, ln2Q] at *
  constructor <;> nlinarith [hfl, hfu, hq1, hq2]

/-- On the clamped range, `Exp` follows the polynomial path. -/
lemma Exp_fin_path (q : ℚ) (p : ℤ) (h1 : minLog64 ≤ q) (h2 : q ≤ maxLog64) :
    Exp (fin q) p =
      fin (expPoly (q - (⌊q * invLn2Q + 1 / 2⌋ : ℤ) * ln2Q)
        (normalizePrecision p) * (2 : ℚ) ^ (⌊q * invLn2Q + 1 / 2⌋ : ℤ)) := by
  unfold Exp
  rw [if_neg (by simp [beq]), if_neg (by simp [isInfP]),
    if_neg (by simp [isInfN]), if_neg (by simp [blt]; exact h2),
    if_neg (by simp [blt]; exact h1)]

lemma Exp_over64 (q : ℚ) (p : ℤ) (h : maxLog64 < q) : Exp (fin q) p = inf true := by
  unfold Exp
  rw [if_neg (by simp [beq]), if_neg (by simp [isInfP]),
    if_neg (by simp [isInfN]), if_pos (by simp [blt]; exact h)]

lemma Exp_under64 (q : ℚ) (p : ℤ) (h : q < minLog64) : Exp (fin q) p = fin 0 := by
  have hmm : minLog64 ≤ maxLog64 := by norm_num [minLog64, maxLog64]
  unfold Exp
  rw [if_neg (by simp [beq]), if_neg (by simp [isInfP]),
    if_neg (by simp [isInfN]), if_neg (by simp [blt]; linarith),
    if_pos (by simp [blt]; exact h)]

lemma two_zpow_bound_aux :
    (2 - (2 : ℚ) ^ (-24 : ℤ)) * 2 ^ (127 : ℤ) ≤ (2 : ℚ) ^ (128 : ℤ) := by
  have hA : (0 : ℚ) ≤ (2 : ℚ) ^ (-24 : ℤ) := by positivity
  have hB : (0 : ℚ) < (2 : ℚ) ^ (127 : ℤ) := by positivity
  have hC : (2 : ℚ) ^ (128 : ℤ) = 2 * (2 : ℚ) ^ (127 : ℤ) := by
    rw [show (128 : ℤ) = 1 + 127 by norm_num,
      zpow_add₀ (by norm_num : (2 : ℚ) ≠ 0)]
    norm_num
  nlinarith [mul_nonneg hA hB.le]

/-- C4: `Exp` maps NaN to NaN, `+Inf` to `+Inf`, `-Inf` to 0, and clamps
inputs beyond the width's overflow/underflow thresholds to `+Inf` / 0: for
the 64-bit width the clamps are the explicit `maxLogFloat64` /
`minLogFloat64` checks; for the 32-bit width every value from `expOvf32`
(the smallest float32 above `ln(MaxFloat32)`) upward converts to `+Inf`,
and every value from `expUdf32` (the largest float32 below `ln(2⁻¹⁵⁰)`)
downward converts to 0, at every precision value. -/
theorem c4_exp_edge_cases_and_width_thresholds (p : ℤ) :
    Exp nan p = nan ∧ Exp (inf true) p = inf true ∧ Exp (inf false) p = fin 0 ∧
      (∀ q : ℚ, maxLog64 < q → Exp (fin q) p = inf true) ∧
      (∀ q : ℚ, q < minLog64 → Exp (fin q) p = fin 0) ∧
      Exp32 nan p = nan ∧ Exp32 (inf true) p = inf true ∧
      Exp32 (inf false) p = fin 0 ∧
      (∀ q : ℚ, expOvf32 ≤ q → Exp32 (fin q) p = inf true) ∧
      (∀ q : ℚ, q ≤ expUdf32 → Exp32 (fin q) p = fin 0) := by
  have hinv : (0 : ℚ) ≤ invLn2Q := by norm_num [invLn2Q]
  refine ⟨rfl, rfl, rfl, fun q => Exp_over64 q p, fun q => Exp_under64 q p, rfl, rfl, ?_, ?_, ?_⟩
  · show roundF32 (Exp (inf false) p) = fin 0
    rw [show Exp (inf false) p = fin 0 from rfl, roundF32_zero]
  · intro q hq
    by_cases hbig : maxLog64 < q
    · unfold Exp32
      rw [Exp_over64 q p hbig]
      rfl
    · have h2 : q ≤ maxLog64 := not_lt.mp hbig
      have h1 : minLog64 ≤ q := by
        have ha : minLog64 ≤ expOvf32 := by norm_num [minLog64, expOvf32]
        linarith
      unfold Exp32
      rw [Exp_fin_path q p h1 h2]
      set k : ℤ := ⌊q * invLn2Q + 1 / 2⌋ with hkdef
      obtain ⟨hr1, hr2⟩ := exp_reduced_arg_bounds q
        (by
          have ha : (-746 : ℚ) ≤ minLog64 := by norm_num [minLog64]
          linarith)
        (by
          have ha : maxLog64 ≤ (710 : ℚ) := by norm_num [maxLog64]
          linarith)
      rw [← hkdef] at hr1 hr2
      have hk128 : (128 : ℤ) ≤ k := by
        rw [hkdef]
        apply Int.le_floor.mpr
        push_cast
        have hmul : expOvf32 * invLn2Q ≤ q * invLn2Q :=
          mul_le_mul_of_nonneg_right hq hinv
        have hnum : (128 : ℚ) ≤ expOvf32 * invLn2Q + 1 / 2 := by
          norm_num [expOvf32, invLn2Q]
        linarith
      rcases eq_or_lt_of_le hk128 with hk1 | hk2
      · have hr0 : 0 ≤ q - (k : ℚ) * ln2Q := by
          rw [← hk1]
          push_cast
          have : (128 : ℚ) * ln2Q ≤ expOvf32 := by norm_num [ln2Q, expOvf32]
          linarith
        have hp1 : 1 ≤ expPoly (q - (k : ℚ) * ln2Q) (normalizePrecision p) :=
          expPoly_ge_one _ _ hr0
        apply roundF32_big
        have hpos : (0 : ℚ) ≤ (2 : ℚ) ^ k := by positivity
        calc (2 - (2 : ℚ) ^ (-24 : ℤ)) * 2 ^ (127 : ℤ)
            ≤ (2 : ℚ) ^ (128 : ℤ) := two_zpow_bound_aux
          _ = 1 * (2 : ℚ) ^ k := by rw [hk1, one_mul]
          _ ≤ expPoly (q - (k : ℚ) * ln2Q) (normalizePrecision p) * (2 : ℚ) ^ k :=
              mul_le_mul_of_nonneg_right hp1 hpos
      · obtain ⟨hp1, _⟩ := expPoly_bounds (normalizePrecision p) _ hr1 hr2
        apply roundF32_big
        have hzk : (2 : ℚ) ^ (129 : ℤ) ≤ (2 : ℚ) ^ k :=
          zpow_le_zpow_right₀ one_le_two (by omega)
        have hppos : (0 : ℚ) ≤ (2 : ℚ) ^ (129 : ℤ) := by positivity
        have hmul : (1 / 2) * (2 : ℚ) ^ (129 : ℤ) ≤
            expPoly (q - (k : ℚ) * ln2Q) (normalizePrecision p) * (2 : ℚ) ^ k :=
          mul_le_mul hp1 hzk hppos (le_trans (by norm_num) hp1)
        have hC : (1 / 2 : ℚ) * (2 : ℚ) ^ (129 : ℤ) = (2 : ℚ) ^ (128 : ℤ) := by
          rw [show (129 : ℤ) = 1 + 128 by norm_num,
            zpow_add₀ (by norm_num : (2 : ℚ) ≠ 0)]
          norm_num
        have := two_zpow_bound_aux
        linarith
  · intro q hq
    by_cases hsmall : q < minLog64
    · unfold Exp32
      rw [Exp_under64 q p hsmall, roundF32_zero]
    · have h1 : minLog64 ≤ q := not_lt.mp hsmall
      have h2 : q ≤ maxLog64 := by
        have ha : expUdf32 ≤ maxLog64 := by norm_num [expUdf32, maxLog64]
        linarith
      unfold Exp32
      rw [Exp_fin_path q p h1 h2]
      set k : ℤ := ⌊q * invLn2Q + 1 / 2⌋ with hkdef
      obtain ⟨hr1, hr2⟩ := exp_reduced_arg_bounds q
        (by
          have ha : (-746 : ℚ) ≤ minLog64 := by norm_num [minLog64]
          linarith)
        (by
          have ha : expUdf32 ≤ (710 : ℚ) := by norm_num [expUdf32]
          linarith)
      rw [← hkdef] at hr1 hr2
      have hkm : k ≤ -150 := by
        have hmul : q * invLn2Q ≤ expUdf32 * invLn2Q :=
          mul_le_mul_of_nonneg_right hq hinv
        have hnum : expUdf32 * invLn2Q + 1 / 2 < -149 := by
          norm_num [expUdf32, invLn2Q]
        have hlt : k < -149 := by
          rw [hkdef]
          apply Int.floor_lt.mpr
          push_cast
          linarith
        omega
      obtain ⟨hp0, hp2⟩ := expPoly_bounds (normalizePrecision p) _ hr1 hr2
      have hzkpos : (0 : ℚ) < (2 : ℚ) ^ k := by positivity
      have hvpos : 0 < expPoly (q - (k : ℚ) * ln2Q) (normalizePrecision p) *
          (2 : ℚ) ^ k := by nlinarith
      rcases eq_or_lt_of_le hkm with hk1 | hk2
      · have hr0 : q - (k : ℚ) * ln2Q ≤ 0 := by
          rw [hk1]
          push_cast
          have : expUdf32 + 150 * ln2Q < 0 := by norm_num [expUdf32, ln2Q]
          linarith
        have hple : expPoly (q - (k : ℚ) * ln2Q) (normalizePrecision p) ≤ 1 :=
          expPoly_le_one _ _ hr1 hr0
        apply roundF32_small_pos _ hvpos
        calc expPoly (q - (k : ℚ) * ln2Q) (normalizePrecision p) * (2 : ℚ) ^ k
            ≤ 1 * (2 : ℚ) ^ k := mul_le_mul_of_nonneg_right hple hzkpos.le
          _ = (2 : ℚ) ^ (-150 : ℤ) := by rw [one_mul, hk1]
      · apply roundF32_small_pos _ hvpos
        have hzk : (2 : ℚ) ^ k ≤ (2 : ℚ) ^ (-151 : ℤ) :=
          zpow_le_zpow_right₀ one_le_two (by omega)
        have hC : (2 : ℚ) * (2 : ℚ) ^ (-151 : ℤ) = (2 : ℚ) ^ (-150 : ℤ) := by
          rw [show (-150 : ℤ) = 1 + -151 by norm_num,
            zpow_add₀ (by norm_num : (2 : ℚ) ≠ 0)]
          norm_num
        calc expPoly (q - (k : ℚ) * ln2Q) (normalizePrecision p) * (2 : ℚ) ^ k
            ≤ 2 * (2 : ℚ) ^ (-151 : ℤ) := by nlinarith
          _ = (2 : ℚ) ^ (-150 : ℤ) := hC

/-- Witness for C4 at a concrete tier and concrete inputs on each side of
both widths' thresholds. -/
theorem c4_exp_edge_cases_and_width_thresholds_witness :
    (maxLog64 < 800 ∧ Exp (fin 800) PrecisionHigh = inf true) ∧
      ((-800 : ℚ) < minLog64 ∧ Exp (fin (-800)) PrecisionHigh = fin 0) ∧
      (expOvf32 ≤ 100 ∧ Exp32 (fin 100) PrecisionHigh = inf true) ∧
      ((-200 : ℚ) ≤ expUdf32 ∧ Exp32 (fin (-200)) PrecisionHigh = fin 0) := by
  obtain ⟨_, _, _, h4, h5, _, _, _, h9, h10⟩ :=
    c4_exp_edge_cases_and_width_thresholds PrecisionHigh
  exact ⟨⟨by norm_num [maxLog64], h4 800 (by norm_num [maxLog64])⟩,
    ⟨by norm_num [minLog64], h5 (-800) (by norm_num [minLog64])⟩,
    ⟨by norm_num [expOvf32], h9 100 (by norm_num [expOvf32])⟩,
    ⟨by norm_num [expUdf32], h10 (-200) (by norm_num [expUdf32])⟩⟩

end AlgoApprox
